import Mathlib

/-!
Verification of the message delivery and aggregation core of a Telegram
chat-bot front end (telebot-gemini).

The development shallowly embeds the relevant Python source:
  * `markdown_utils.ensure_valid_markdown`  — the Markup Balancer;
  * the chunk-splitting loop of `bot_handlers.send_long_message` — the
    Chunk Splitter;
  * the per-chunk send/retry loop of `bot_handlers.send_long_message` —
    the Delivery Engine (the Telegram transport is modelled as an oracle
    assigning an outcome to every (chunk, attempt) pair, and the engine
    is modelled as the trace of externally visible events it produces);
  * the media-group buffering of `bot_handlers.handle_photo_message` and
    `bot_handlers.process_media_group_callback` — the Submission
    Aggregator.

Texts handled character-by-character (balancer, splitter) are modelled as
`List Char`; item captions and prompts are modelled as `String`.
-/

namespace TelebotGemini
/-- The backtick character, U+0060 (written via its code point). -/
def btick : Char := Char.ofNat 96

/-- The three-character code-fence token, the sole element of the source's
`multi_char_symbols` set. -/
def tripleTick : List Char := [btick, btick, btick]

/-- Membership in the source's `single_char_symbols = {'*', '`', '~'}`. -/
def isSymbol (c : Char) : Bool := c = '*' || c = btick || c = '~'

/-!
## Markup Balancer (`markdown_utils.ensure_valid_markdown`)

The Python function scans the text left to right keeping a stack of open
delimiter tokens (strings, here `List Char`): at each position it first
tries to match the three-character token `tripleTick` (toggling it on the
stack), otherwise a single-character symbol (toggling it), otherwise the
character passes through.  The scanned text is echoed to the result
verbatim; at the end every token still on the stack is appended in pop
order.  `evmRun` returns the pair (echoed text, final stack); the stack is
kept top-first (push = cons).
-/

/-- The source's stack update for one token: `if stack and stack[-1] == symbol:
stack.pop() else: stack.append(symbol)` (stack kept top-first here). -/
def toggle (stack : List (List Char)) (tok : List Char) : List (List Char) :=
  if stack.head? = some tok then stack.tail else tok :: stack

/-- The scanning loop of `ensure_valid_markdown`, with explicit fuel so that
the definition is structurally recursive (the fuel is always instantiated
with the length of the text, which bounds the number of loop iterations).
Returns the text echoed by the main `while` loop together with the final
stack (top first). -/
def evmRunF : Nat → List Char → List (List Char) → List Char × List (List Char)
  | 0, _, stack => ([], stack)
  | _ + 1, [], stack => ([], stack)
  | fuel + 1, c :: rest, stack =>
    if (c :: rest).take 3 = tripleTick then
      let r := evmRunF fuel (rest.drop 2) (toggle stack tripleTick)
      (tripleTick ++ r.1, r.2)
    else if isSymbol c then
      let r := evmRunF fuel rest (toggle stack [c])
      (c :: r.1, r.2)
    else
      let r := evmRunF fuel rest stack
      (c :: r.1, r.2)

/-- The scanning loop of `ensure_valid_markdown` (fuel instantiated). -/
def evmRun (t : List Char) (st : List (List Char)) : List Char × List (List Char) :=
  evmRunF t.length t st

/-- `markdown_utils.ensure_valid_markdown`: empty input short-circuits to
empty output; otherwise run the scan and append the unmatched stack entries
in pop order. -/
def ensure_valid_markdown (text : List Char) : List Char :=
  if text = [] then []
  else
    let r := evmRun text []
    r.1 ++ r.2.flatten

/-- A well-formed stack entry: the code-fence token or a single-symbol token.
Every entry the scanner ever pushes has this shape. -/
def GoodEnt (e : List Char) : Prop := e = tripleTick ∨ ∃ c, e = [c] ∧ isSymbol c

/-- The concrete input refuting claim C4: a backtick, a letter, and two more
backticks.  Balancing appends one closing backtick, which joins the two
trailing backticks into a code-fence token on the second pass. -/
def c4Input : List Char := [btick, 'a', btick, btick]

/-- No character of the text is a backtick. -/
def NoTick (t : List Char) : Prop := ∀ c ∈ t, c ≠ btick

/-- A stack entry arising from a backtick-free scan: a single symbol that is
not a backtick. -/
def SingNT (e : List Char) : Prop := ∃ c, e = [c] ∧ isSymbol c ∧ c ≠ btick

/-!
## Chunk Splitter (the splitting loop of `bot_handlers.send_long_message`)

The Python code splits `text_to_send` on newline characters, greedily packs
lines into `current_chunk` while `len(current_chunk) + len(line) + 1 <=
limit`, force-slices any single line longer than `limit` into slices of
exactly `limit` characters, strips finalized chunks, and appends the final
accumulator only when it strips to something non-empty.
-/

/-- Python whitespace, as stripped by `str.strip()` (ASCII range: space, tab,
newline, carriage return, vertical tab, form feed). -/
def isWs (c : Char) : Bool :=
  c = ' ' || c = '\n' || c = '\t' || c = '\r' || c = Char.ofNat 11 || c = Char.ofNat 12

/-- Python `str.strip()` (left and right whitespace removal). -/
def strip (l : List Char) : List Char :=
  ((l.reverse.dropWhile isWs).reverse).dropWhile isWs

/-- Python `text.split('\n')`: split on every newline; `n` newlines yield
`n + 1` parts, parts may be empty. -/
def splitLines : List Char → List (List Char)
  | [] => [[]]
  | c :: rest =>
    if c = '\n' then [] :: splitLines rest
    else
      match splitLines rest with
      | [] => [[c]]
      | l :: ls => (c :: l) :: ls

/-- The separator re-appended after a line: a newline unless the line is the
last one (`'\n' if i < len(lines) - 1 else ''`). -/
def lineSep (rest : List (List Char)) : List Char :=
  if rest = [] then [] else ['\n']

/-- `for k in range(0, len(line), limit): chunks.append(line[k:k + limit])`,
with explicit fuel (instantiated with the line length, which bounds the
number of slices whenever `limit > 0`). -/
def forceSplitAux : Nat → Nat → List Char → List (List Char)
  | 0, _, _ => []
  | _ + 1, _, [] => []
  | fuel + 1, limit, c :: rest =>
    (c :: rest).take limit :: forceSplitAux fuel limit ((c :: rest).drop limit)

def forceSplit (limit : Nat) (l : List Char) : List (List Char) :=
  forceSplitAux l.length limit l

/-- The chunk-splitting loop of `send_long_message`, processing the remaining
lines with the current accumulator.  Mirrors the Python branch for branch:
force-slice over-long lines (flushing a non-empty accumulator first), pack a
fitting line into the accumulator, or finalize the accumulator and start a
new one; at the end the accumulator is kept only if it strips non-empty. -/
def splitCore (limit : Nat) : List (List Char) → List Char → List (List Char)
  | [], current => if strip current ≠ [] then [strip current] else []
  | line :: rest, current =>
    if limit < line.length then
      (if current ≠ [] then [strip current] else []) ++
        forceSplit limit line ++ splitCore limit rest []
    else if current.length + line.length + 1 ≤ limit then
      splitCore limit rest (current ++ line ++ lineSep rest)
    else
      strip current :: splitCore limit rest (line ++ lineSep rest)

/-- The Chunk Splitter: `split(text, limit)`. -/
def splitChunks (limit : Nat) (text : List Char) : List (List Char) :=
  splitCore limit (splitLines text) []

/-! ### C5: concatenating the chunks reconstructs the text up to boundary
whitespace -/

/-- Reconstruction of the pre-split text from its lines (the inverse of
`splitLines`): the lines joined by single newlines. -/
def rejoin : List (List Char) → List Char
  | [] => []
  | line :: rest => line ++ lineSep rest ++ rejoin rest

/-- The reconstruction relation for C5: `Glue t chunks` says `t` is obtained
by interleaving whitespace-only glue around the chunks in order (glue before
the first chunk, between consecutive chunks, and after the last one).  This
captures "concatenating the chunks in ordinal order, with the newline
separators reinserted, reconstructs the text up to the leading/trailing
whitespace trimmed from each chunk": all the glue is whitespace. -/
inductive Glue : List Char → List (List Char) → Prop
  | nil (w : List Char) (hw : ∀ c ∈ w, isWs c) : Glue w []
  | cons (w chunk rest : List Char) (chunks : List (List Char))
      (hw : ∀ c ∈ w, isWs c) (h : Glue rest chunks) :
      Glue (w ++ chunk ++ rest) (chunk :: chunks)

/-!
## Submission Aggregator
(`bot_handlers.handle_photo_message` and `process_media_group_callback`)
-/

/-- One buffered media-group item: the dict appended to
`context.bot_data['media_groups'][chat_id][group_id]` by
`handle_photo_message`.  `caption_for_ai` and `trigger_command_used_info`
model Python values that may be `None`; `is_reply_to_bot`'s falsy `None` is
identified with `false`. -/
structure MGItem where
  file_id : String
  caption_for_ai : Option String
  original_caption : Option String
  message_id : Nat
  is_reply_to_bot : Bool
  trigger_command_used_info : Option String
deriving DecidableEq

/-- Python truthiness of an optional string (`None` and `""` are falsy). -/
def optTruthy : Option String → Bool
  | none => false
  | some s => s ≠ ""

/-- The duplicate test of `handle_photo_message`:
`any(img['message_id'] == message.message_id for img in
current_images_in_group)`. -/
def isDuplicate (buf : List MGItem) (it : MGItem) : Bool :=
  buf.any (fun img => img.message_id = it.message_id)

/-- The buffer update of `handle_photo_message` for one arriving media-group
item: append unless the item is a duplicate or the buffer already holds
`maxInput` items (`MAX_IMAGE_INPUT`, a config value modelled as a
parameter); the overflow and duplicate branches only log or notify. -/
def addPhotoToGroup (maxInput : Nat) (buf : List MGItem) (it : MGItem) : List MGItem :=
  if ¬ isDuplicate buf it ∧ buf.length < maxInput then buf ++ [it] else buf

/-- Two concrete items for the C7 witness. -/
def mgItemA : MGItem :=
  { file_id := ("f1"), caption_for_ai := some ("hi"), original_caption := none,
    message_id := 1, is_reply_to_bot := false, trigger_command_used_info := none }

def mgItemB : MGItem :=
  { file_id := ("f2"), caption_for_ai := none, original_caption := none,
    message_id := 2, is_reply_to_bot := true, trigger_command_used_info := some ("/ai") }

/-- The media-group buffer `context.bot_data['media_groups']`, flattened to a
map from media-group keys (chat id and group id, opaque here) to buffered
item lists.  Python's nested dicts with their empty-level cleanup behave,
for lookup and removal purposes, as this flat map. -/
def MGBuffer := String → Option (List MGItem)

/-- The outcome of the buffer phase of `process_media_group_callback`: the
updated buffer and the items handed on to processing (`none` means the
callback returned early — no AI call, nothing sent). -/
structure FlushResult where
  buffer : MGBuffer
  processed : Option (List MGItem)

/-- The buffer-removal prologue of `process_media_group_callback`: pop the
submission's items if the id is present; `if not media_group_images_data:
return` — an absent id (or an empty popped list) means no AI call and no
send. -/
def flushMediaGroup (buf : MGBuffer) (id : String) : FlushResult :=
  match buf id with
  | none => { buffer := buf, processed := none }
  | some items =>
    let bufRemoved : MGBuffer := fun k => if k = id then none else buf k
    if items = [] then { buffer := bufRemoved, processed := none }
    else { buffer := bufRemoved, processed := some items }

/-- A concrete buffer holding one submission, for the C8 witness. -/
def c8Buf : MGBuffer := fun k => if k = ("g1") then some [mgItemA] else none

/-! ### C3: the aggregate-prompt precedence of `process_media_group_callback` -/

/-- The triggered-item test of the first caption scan:
`img_detail.get('trigger_command_used_info') or
img_detail.get('is_reply_to_bot')`. -/
def isTriggerItem (it : MGItem) : Bool :=
  optTruthy it.trigger_command_used_info || it.is_reply_to_bot

/-- The first caption loop: take the caption of the first triggered/reply
item and stop.  Returns `none` both when no item is triggered and when the
first triggered item's stored caption is Python `None` — exactly the two
cases in which the source's `final_text_prompt` is still `None` after the
loop. -/
def scanTriggered : List MGItem → Option String
  | [] => none
  | it :: rest => if isTriggerItem it then it.caption_for_ai else scanTriggered rest

/-- The second caption loop: the first truthy (non-`None`, non-empty) caption
in arrival order. -/
def scanFirstCaption : List MGItem → Option String
  | [] => none
  | it :: rest =>
    if optTruthy it.caption_for_ai then it.caption_for_ai else scanFirstCaption rest

/-- The aggregate-prompt selection of `process_media_group_callback`: run the
triggered scan; only if it left `final_text_prompt is None` run the
first-caption scan; finally `if not final_text_prompt:` substitute the
default prompt (`DEFAULT_PROMPT_FOR_IMAGE_IF_NO_CAPTION`, a config value
modelled as a parameter). -/
def finalTextPrompt (items : List MGItem) (defaultPrompt : String) : String :=
  let afterLoop1 := scanTriggered items
  let afterLoop2 :=
    match afterLoop1 with
    | some s => some s
    | none => scanFirstCaption items
  match afterLoop2 with
  | some s => if s = "" then defaultPrompt else s
  | none => defaultPrompt

/-- The prompt precedence exactly as claim C3 words it (reference definition
following the claim, for comparison with the code): (1) the caption of an
item that was itself a trigger-match or reply-to-bot, if that caption is
non-empty; (2) otherwise the first non-empty caption among all items in
arrival order; (3) otherwise the default prompt. -/
def claimPrompt (items : List MGItem) (defaultPrompt : String) : String :=
  match items.find? (fun it => isTriggerItem it && optTruthy it.caption_for_ai) with
  | some it => (it.caption_for_ai).getD defaultPrompt
  | none =>
    match items.find? (fun it => optTruthy it.caption_for_ai) with
    | some it => (it.caption_for_ai).getD defaultPrompt
    | none => defaultPrompt

/-- A non-triggered item with caption "hello". -/
def c3Item1 : MGItem :=
  { file_id := ("f1"), caption_for_ai := some ("hello"), original_caption := none,
    message_id := 1, is_reply_to_bot := false, trigger_command_used_info := none }

/-- A triggered item whose caption is the empty string. -/
def c3Item2 : MGItem :=
  { file_id := ("f2"), caption_for_ai := some (""), original_caption := none,
    message_id := 2, is_reply_to_bot := false, trigger_command_used_info := some ("/ai") }

/-- The amended precedence, declaratively: (1) if some item is a
trigger-match or reply-to-bot, take the FIRST such item's caption: a
non-empty string is the prompt; the empty string falls straight to the
default prompt (other captions are not consulted); Python `None` falls
through to (2); (2) otherwise the first non-empty caption in arrival order;
(3) otherwise the default prompt. -/
def amendedPrompt (items : List MGItem) (defaultPrompt : String) : String :=
  let fallback :=
    match scanFirstCaption items with
    | some s => if s = "" then defaultPrompt else s
    | none => defaultPrompt
  match items.find? (fun it => isTriggerItem it) with
  | some it =>
    match it.caption_for_ai with
    | some s => if s = "" then defaultPrompt else s
    | none => fallback
  | none => fallback

/-- A triggered item with the caption of the claim's example. -/
def c3Item3 : MGItem :=
  { file_id := ("f3"), caption_for_ai := some ("describe these"),
    original_caption := none, message_id := 3, is_reply_to_bot := false,
    trigger_command_used_info := some ("/ai") }

/-- An item with an empty caption and no trigger. -/
def c3Item4 : MGItem :=
  { file_id := ("f4"), caption_for_ai := some (""), original_caption := none,
    message_id := 4, is_reply_to_bot := false, trigger_command_used_info := none }

/-!
## Delivery Engine (the send loop of `bot_handlers.send_long_message`)

The Telegram transport is modelled as an oracle assigning to every
(chunk index, attempt index) pair the outcome of that `send_message` call;
the engine is modelled as the list of externally visible events it
produces (sends, the user-visible error notice, sleeps).
-/

/-- Outcome of one `bot.send_message` call, following the source's except
clauses: success, `RetryAfter` (rate limit, with the provider delay), a
`BadRequest` whose message contains "can't parse entities", any other
`BadRequest`, any other `TelegramError`, and any other exception. -/
inductive SendOutcome where
  | success
  | retryAfter (delay : Nat)
  | badRequestParse
  | badRequestOther
  | telegramError
  | otherError
deriving DecidableEq

/-- An externally visible event of the engine: a send attempt (chunk index,
text sent, markdown parse mode?, reply-to id, outcome the transport
returned), the user-visible error notice, the rate-limit sleep, and the
0.7-second pacing sleep between chunks. -/
inductive Event where
  | sendMsg (chunkIdx : Nat) (text : List Char) (markdown : Bool)
      (replyTo : Option Nat) (outcome : SendOutcome)
  | errorNotice (chunkIdx : Nat)
  | sleep (delay : Nat)
  | pace
deriving DecidableEq

/-- `max_retries_markdown_fail = 1`. -/
def maxRetriesMarkdownFail : Nat := 1

/-- The transport model: outcome of the send call for (chunk index, attempt
index). -/
def Oracle := Nat → Nat → SendOutcome

/-- The inner retry loop `for attempt in range(max_retries_markdown_fail + 1)`
for one chunk.  `fuel` is the number of loop iterations left (initially
`maxRetriesMarkdownFail + 1`), `attempt` the Python loop variable,
`textCur`/`isMd` the mutable `text_for_current_chunk`/`current_parse_mode`,
`chunkText` the unmodified chunk (used by the plain-text downgrade),
`curReply` the per-chunk `current_reply_id`, and `replyArg` the caller's
`reply_to_message_id` (consulted by the generic-exception branch). -/
def attemptLoop (oracle : Oracle) (i : Nat) (chunkText : List Char)
    (replyArg curReply : Option Nat) :
    Nat → Nat → List Char → Bool → List Event
  | 0, _, _, _ => []
  | fuel + 1, attempt, textCur, isMd =>
    let out := oracle i attempt
    let ev := Event.sendMsg i textCur isMd curReply out
    match out with
    | SendOutcome.success => [ev]
    | SendOutcome.retryAfter d =>
      ev :: Event.sleep d ::
        attemptLoop oracle i chunkText replyArg curReply fuel (attempt + 1) textCur isMd
    | SendOutcome.badRequestParse =>
      if isMd ∧ attempt < maxRetriesMarkdownFail then
        ev :: attemptLoop oracle i chunkText replyArg curReply fuel (attempt + 1)
          chunkText false
      else ev :: (if i = 0 then [Event.errorNotice i] else [])
    | SendOutcome.badRequestOther =>
      ev :: (if i = 0 then [Event.errorNotice i] else [])
    | SendOutcome.telegramError =>
      ev :: (if i = 0 then [Event.errorNotice i] else [])
    | SendOutcome.otherError =>
      ev :: (if i = 0 ∧ replyArg = none then [Event.errorNotice i] else [])

/-- Per-chunk preprocessing: when the caller asked for markdown, re-run the
Markup Balancer on the chunk; if the re-validated chunk strips to empty
while the raw chunk does not, fall back to the raw chunk in plain mode for
this chunk only. -/
def chunkTextMode (chunkText : List Char) (isMdParam : Bool) : List Char × Bool :=
  if isMdParam then
    if strip (ensure_valid_markdown chunkText) = [] ∧ strip chunkText ≠ [] then
      (chunkText, false)
    else (ensure_valid_markdown chunkText, true)
  else (chunkText, false)

/-- One chunk of the outer loop body: preprocessing, reply-id selection
(`reply_to_message_id if i == 0 else None`), and the retry loop. -/
def processChunk (oracle : Oracle) (i : Nat) (chunkText : List Char)
    (isMdParam : Bool) (replyArg : Option Nat) : List Event :=
  let tm := chunkTextMode chunkText isMdParam
  attemptLoop oracle i chunkText replyArg (if i = 0 then replyArg else none)
    (maxRetriesMarkdownFail + 1) 0 tm.1 tm.2

/-- The outer `for i, chunk_text in enumerate(chunks)` loop: empty chunks are
skipped entirely (`if not chunk_text: continue`), and after each processed
chunk except the last a pacing sleep runs when there are at least two
chunks.  `n` is the total chunk count, `i` the index of the first remaining
chunk. -/
def chunkLoop (oracle : Oracle) (isMdParam : Bool) (replyArg : Option Nat)
    (n : Nat) : Nat → List (List Char) → List Event
  | _, [] => []
  | i, c :: rest =>
    (if c = [] then []
     else processChunk oracle i c isMdParam replyArg ++
       (if 1 < n ∧ i < n - 1 then [Event.pace] else [])) ++
      chunkLoop oracle isMdParam replyArg n (i + 1) rest

/-- Deliver a chunk sequence (the loop of `send_long_message` after
splitting). -/
def deliverChunks (oracle : Oracle) (isMdParam : Bool) (replyArg : Option Nat)
    (chunks : List (List Char)) : List Event :=
  chunkLoop oracle isMdParam replyArg chunks.length 0 chunks

/-- `TELEGRAM_MAX_MESSAGE_LENGTH = getattr(config, ..., 4096)` (the in-repo
default). -/
def TELEGRAM_MAX_MESSAGE_LENGTH : Nat := 4096

/-- `limit = TELEGRAM_MAX_MESSAGE_LENGTH - 20`. -/
def sendLimit : Nat := TELEGRAM_MAX_MESSAGE_LENGTH - 20

/-- The splitting-and-delivery body of `send_long_message` once a non-empty
text is settled: split; if no chunks resulted, return silently; otherwise
run the delivery loop. -/
def sendBody (oracle : Oracle) (text : List Char) (replyArg : Option Nat)
    (md : Bool) : List Event :=
  let chunks := splitChunks sendLimit text
  if chunks = [] then [] else deliverChunks oracle md replyArg chunks

/-- `bot_handlers.send_long_message` as the trace of events it produces: an
empty `text_to_send` is replaced by the raw fallback text in plain mode when
that strips non-empty, otherwise the call returns without sending. -/
def send_long_message (oracle : Oracle) (textToSend : List Char)
    (replyArg : Option Nat) (isMdParam : Bool)
    (originalTextIfMarkdownFails : Option (List Char)) : List Event :=
  if textToSend = [] then
    match originalTextIfMarkdownFails with
    | some o => if strip o ≠ [] then sendBody oracle o replyArg false else []
    | none => []
  else sendBody oracle textToSend replyArg isMdParam

/-! ### C1: format rejection, plain retry, error notice — but no early stop -/

/-- A transport that rejects every send of chunk 0 as unparseable and accepts
everything else. -/
def c1Oracle : Oracle := fun i _ =>
  if i = 0 then SendOutcome.badRequestParse else SendOutcome.success

/-! ### C6: rate-limit sleep and retry share the chunk's two-attempt budget -/

/-- A transport whose first send of every chunk is rejected as unparseable
and whose second send is rate-limited. -/
def c6Oracle : Oracle := fun _ a =>
  if a = 0 then SendOutcome.badRequestParse else SendOutcome.retryAfter 5

/-- Send events among the engine's trace events. -/
def isSendEvent : Event → Bool
  | Event.sendMsg _ _ _ _ _ => true
  | _ => false

/-- A transport whose first send of every chunk is rate-limited and whose
second send succeeds, for the C6 witness. -/
def c6WOracle : Oracle := fun _ a =>
  if a = 0 then SendOutcome.retryAfter 3 else SendOutcome.success

/-- A transport that accepts every send. -/
def successOracle : Oracle := fun _ _ => SendOutcome.success

/-- Projection of the trace to the reply references of its send events. -/
def sendReply : Event → Option (Option Nat)
  | Event.sendMsg _ _ _ r _ => some r
  | _ => none

/-! ## Theorems -/

theorem evmRunF_fuel : ∀ (f : Nat) (t : List Char) (g : Nat) (st : List (List Char)),
    t.length ≤ f → t.length ≤ g → evmRunF f t st = evmRunF g t st := by
  intro f
  induction f with
  | zero =>
    intro t g st h1 _
    have ht : t = [] := List.eq_nil_of_length_eq_zero (Nat.le_zero.mp h1)
    subst ht
    cases g <;> rfl
  | succ f ih =>
    intro t g st h1 h2
    match t, g with
    | [], g => cases g <;> rfl
    | c :: rest, 0 => exact absurd h2 (by simp)
    | c :: rest, g + 1 =>
      simp only [List.length_cons, Nat.add_le_add_iff_right] at h1 h2
      show evmRunF (f + 1) (c :: rest) st = evmRunF (g + 1) (c :: rest) st
      unfold evmRunF
      by_cases h3 : (c :: rest).take 3 = tripleTick
      · simp only [if_pos h3]
        rw [ih (rest.drop 2) g (toggle st tripleTick)
          (by simp only [List.length_drop]; omega)
          (by simp only [List.length_drop]; omega)]
      · by_cases h4 : isSymbol c
        · simp only [if_neg h3, if_pos h4]
          rw [ih rest g (toggle st [c]) h1 h2]
        · simp only [if_neg h3, if_neg h4]
          rw [ih rest g st h1 h2]

theorem evmRun_nil (stack : List (List Char)) : evmRun [] stack = ([], stack) := rfl

theorem evmRun_triple {c : Char} {rest : List Char} (stack : List (List Char))
    (h : (c :: rest).take 3 = tripleTick) :
    evmRun (c :: rest) stack =
      (tripleTick ++ (evmRun (rest.drop 2) (toggle stack tripleTick)).1,
        (evmRun (rest.drop 2) (toggle stack tripleTick)).2) := by
  show evmRunF (rest.length + 1) (c :: rest) stack = _
  unfold evmRunF
  rw [if_pos h]
  rw [evmRunF_fuel rest.length (rest.drop 2) (rest.drop 2).length
    (toggle stack tripleTick) (by simp only [List.length_drop]; omega) le_rfl]
  rfl

theorem evmRun_symbol {c : Char} {rest : List Char} (stack : List (List Char))
    (h : ¬ (c :: rest).take 3 = tripleTick) (hs : isSymbol c) :
    evmRun (c :: rest) stack =
      ((c :: (evmRun rest (toggle stack [c])).1),
        (evmRun rest (toggle stack [c])).2) := by
  show evmRunF (rest.length + 1) (c :: rest) stack = _
  unfold evmRunF
  rw [if_neg h, if_pos hs]
  rfl

theorem evmRun_plain {c : Char} {rest : List Char} (stack : List (List Char))
    (h : ¬ (c :: rest).take 3 = tripleTick) (hs : ¬ isSymbol c) :
    evmRun (c :: rest) stack =
      ((c :: (evmRun rest stack).1), (evmRun rest stack).2) := by
  show evmRunF (rest.length + 1) (c :: rest) stack = _
  unfold evmRunF
  rw [if_neg h, if_neg hs]
  rfl

/-- If a list's first three characters form the code-fence token, its head is
a backtick. -/
theorem take3_triple_head {l : List Char} (h : l.take 3 = tripleTick) :
    l.head? = some btick := by
  cases l with
  | nil => simp [tripleTick] at h
  | cons c rest =>
    simp only [List.take_succ_cons, tripleTick] at h
    simp [List.cons.injEq] at h
    simp [h.1]

/-- A list whose first three characters form the code-fence token decomposes
as that token followed by the rest. -/
theorem take3_triple_decomp {c : Char} {rest : List Char}
    (h : (c :: rest).take 3 = tripleTick) :
    c :: rest = tripleTick ++ rest.drop 2 := by
  conv_lhs => rw [← List.take_append_drop 3 (c :: rest)]
  rw [h]
  rfl

/-- The scan echoes its input exactly: the first component of `evmRun` is the
input text unchanged. -/
theorem evmRunF_fst : ∀ (f : Nat) (t : List Char) (st : List (List Char)),
    t.length ≤ f → (evmRunF f t st).1 = t := by
  intro f
  induction f with
  | zero =>
    intro t st h1
    have ht : t = [] := List.eq_nil_of_length_eq_zero (Nat.le_zero.mp h1)
    subst ht; rfl
  | succ f ih =>
    intro t st h1
    cases t with
    | nil => rfl
    | cons c rest =>
      simp only [List.length_cons, Nat.add_le_add_iff_right] at h1
      unfold evmRunF
      by_cases h3 : (c :: rest).take 3 = tripleTick
      · simp only [if_pos h3]
        show tripleTick ++ (evmRunF f (rest.drop 2) (toggle st tripleTick)).1 = c :: rest
        rw [ih (rest.drop 2) (toggle st tripleTick) (by simp only [List.length_drop]; omega)]
        exact (take3_triple_decomp h3).symm
      · by_cases h4 : isSymbol c
        · simp only [if_neg h3, if_pos h4]
          show c :: (evmRunF f rest (toggle st [c])).1 = c :: rest
          rw [ih rest (toggle st [c]) h1]
        · simp only [if_neg h3, if_neg h4]
          show c :: (evmRunF f rest st).1 = c :: rest
          rw [ih rest st h1]

theorem evmRun_fst (t : List Char) (st : List (List Char)) :
    (evmRun t st).1 = t :=
  evmRunF_fst t.length t st le_rfl

theorem toggle_pred {P : List Char → Prop} {stack : List (List Char)} {tok : List Char}
    (hst : ∀ e ∈ stack, P e) (htok : P tok) : ∀ e ∈ toggle stack tok, P e := by
  intro e he
  unfold toggle at he
  split at he
  · cases stack with
    | nil => simp at he
    | cons s ss => exact hst e (List.mem_cons_of_mem s he)
  · rcases List.mem_cons.mp he with rfl | h2
    · exact htok
    · exact hst e h2

theorem evmRunF_stack_good : ∀ (f : Nat) (t : List Char) (st : List (List Char)),
    (∀ e ∈ st, GoodEnt e) → ∀ e ∈ (evmRunF f t st).2, GoodEnt e := by
  intro f
  induction f with
  | zero => intro t st hst; exact hst
  | succ f ih =>
    intro t st hst
    cases t with
    | nil => exact hst
    | cons c rest =>
      unfold evmRunF
      by_cases h3 : (c :: rest).take 3 = tripleTick
      · simp only [if_pos h3]
        exact ih _ _ (toggle_pred hst (Or.inl rfl))
      · by_cases h4 : isSymbol c
        · simp only [if_neg h3, if_pos h4]
          exact ih _ _ (toggle_pred hst (Or.inr ⟨c, rfl, h4⟩))
        · simp only [if_neg h3, if_neg h4]
          exact ih _ _ hst

theorem goodEnt_symbols {e : List Char} (hg : GoodEnt e) : ∀ c ∈ e, isSymbol c := by
  rcases hg with rfl | ⟨d, rfl, hd⟩
  · intro x hx
    simp only [tripleTick, List.mem_cons, List.not_mem_nil, or_false] at hx
    rcases hx with rfl | rfl | rfl <;> decide
  · intro x hx
    rw [List.mem_singleton] at hx
    subst hx
    exact hd

/-- Claim C10: for every input `t`, the Markup Balancer's output is `t`
followed by a (possibly empty) suffix consisting only of delimiter-symbol
characters (the unmatched stack entries in pop order); in particular the
input is a character-for-character prefix of the output and the output is
never shorter than the input. -/
theorem claim_C10 (t : List Char) :
    ∃ s : List Char, ensure_valid_markdown t = t ++ s ∧
      (∀ c ∈ s, isSymbol c) ∧ t.length ≤ (ensure_valid_markdown t).length := by
  by_cases ht : t = []
  · subst ht
    exact ⟨[], rfl, by simp, by simp⟩
  · have heq : ensure_valid_markdown t = t ++ (evmRun t []).2.flatten := by
      unfold ensure_valid_markdown
      rw [if_neg ht]
      show (evmRun t []).1 ++ (evmRun t []).2.flatten = _
      rw [evmRun_fst]
    refine ⟨(evmRun t []).2.flatten, heq, ?_, ?_⟩
    · intro c hc
      obtain ⟨e, he, hce⟩ := List.mem_flatten.mp hc
      exact goodEnt_symbols (evmRunF_stack_good t.length t [] (by simp) e he) c hce
    · rw [heq, List.length_append]
      exact Nat.le_add_right _ _

/-- Claim C4 as stated is false: the Markup Balancer is not idempotent.  On
the input [backtick, a, backtick, backtick] the first pass outputs the input
plus one closing backtick; re-running the balancer re-tokenizes the three
adjacent trailing backticks as a code-fence token and appends four more
characters. -/
theorem cex_C4 :
    ensure_valid_markdown (ensure_valid_markdown c4Input) ≠
      ensure_valid_markdown c4Input := by decide

theorem take3_ne_triple_of_head {c : Char} (rest : List Char) (hc : c ≠ btick) :
    ¬ (c :: rest).take 3 = tripleTick := by
  intro h
  have hh := take3_triple_head h
  simp only [List.head?_cons, Option.some.injEq] at hh
  exact hc hh

/-- Processing a concatenation whose first part is backtick-free decomposes:
no code-fence token can start inside (or at the boundary of) the first part,
so the scan of the first part is independent of the second. -/
theorem evmRun_append_noTick : ∀ (a b : List Char) (st : List (List Char)), NoTick a →
    evmRun (a ++ b) st =
      ((evmRun a st).1 ++ (evmRun b (evmRun a st).2).1,
        (evmRun b (evmRun a st).2).2) := by
  intro a
  induction a with
  | nil =>
    intro b st _
    simp only [List.nil_append, evmRun_nil]
  | cons c a' ih =>
    intro b st hnt
    have hc : c ≠ btick := hnt c (List.mem_cons_self c a')
    have h3 : ¬ (c :: (a' ++ b)).take 3 = tripleTick := take3_ne_triple_of_head _ hc
    have h3' : ¬ (c :: a').take 3 = tripleTick := take3_ne_triple_of_head _ hc
    have hnt' : NoTick a' := fun x hx => hnt x (List.mem_cons_of_mem c hx)
    rw [show (c :: a') ++ b = c :: (a' ++ b) from rfl]
    by_cases h4 : isSymbol c
    · rw [evmRun_symbol st h3 h4, evmRun_symbol st h3' h4, ih b (toggle st [c]) hnt']
      simp
    · rw [evmRun_plain st h3 h4, evmRun_plain st h3' h4, ih b st hnt']
      simp

theorem evmRunF_stack_singNT : ∀ (f : Nat) (t : List Char) (st : List (List Char)),
    NoTick t → (∀ e ∈ st, SingNT e) → ∀ e ∈ (evmRunF f t st).2, SingNT e := by
  intro f
  induction f with
  | zero => intro t st _ hst; exact hst
  | succ f ih =>
    intro t st hnt hst
    cases t with
    | nil => exact hst
    | cons c rest =>
      have hc : c ≠ btick := hnt c (List.mem_cons_self c rest)
      have hnt' : NoTick rest := fun x hx => hnt x (List.mem_cons_of_mem c hx)
      have h3 : ¬ (c :: rest).take 3 = tripleTick := take3_ne_triple_of_head _ hc
      unfold evmRunF
      by_cases h4 : isSymbol c
      · simp only [if_neg h3, if_pos h4]
        exact ih _ _ hnt' (toggle_pred hst ⟨c, rfl, h4, hc⟩)
      · simp only [if_neg h3, if_neg h4]
        exact ih _ _ hnt' hst

theorem noTick_flatten {S : List (List Char)} (h : ∀ e ∈ S, SingNT e) :
    NoTick S.flatten := by
  intro c hc
  obtain ⟨e, he, hce⟩ := List.mem_flatten.mp hc
  obtain ⟨d, rfl, _, hdb⟩ := h e he
  rw [List.mem_singleton] at hce
  subst hce
  exact hdb

/-- Scanning the flattened closers against the very stack that produced them
pops every entry, one character at a time, leaving an empty stack. -/
theorem evmRun_popAll : ∀ (S : List (List Char)), (∀ e ∈ S, SingNT e) →
    evmRun S.flatten S = (S.flatten, []) := by
  intro S
  induction S with
  | nil => intro _; rfl
  | cons e S' ih =>
    intro hS
    obtain ⟨c, rfl, hc, hcb⟩ := hS e (List.mem_cons_self e S')
    have hfl : ([c] :: S').flatten = c :: S'.flatten := by simp
    rw [hfl]
    have h3 : ¬ (c :: S'.flatten).take 3 = tripleTick := take3_ne_triple_of_head _ hcb
    rw [evmRun_symbol _ h3 hc]
    have ht : toggle ([c] :: S') [c] = S' := by simp [toggle]
    rw [ht, ih (fun x hx => hS x (List.mem_cons_of_mem _ hx))]

/-- Claim C4, amended: the Markup Balancer is idempotent on every text that
contains no backtick character (`balance(balance(T)) == balance(T)` for all
backtick-free `T`).  On texts with backticks idempotence can fail, because
the appended closers can merge with trailing backticks of the input into a
code-fence token on the second pass (see the counterexample). -/
theorem claim_C4 (t : List Char) (hnt : NoTick t) :
    ensure_valid_markdown (ensure_valid_markdown t) = ensure_valid_markdown t := by
  by_cases ht : t = []
  · subst ht; rfl
  · have hSnt : ∀ e ∈ (evmRun t []).2, SingNT e :=
      evmRunF_stack_singNT t.length t [] hnt (by simp)
    have hevm : ensure_valid_markdown t = t ++ (evmRun t []).2.flatten := by
      unfold ensure_valid_markdown
      rw [if_neg ht]
      show (evmRun t []).1 ++ (evmRun t []).2.flatten = _
      rw [evmRun_fst]
    rw [hevm]
    have htJ : t ++ (evmRun t []).2.flatten ≠ [] := by
      simp [ht]
    unfold ensure_valid_markdown
    rw [if_neg htJ]
    show (evmRun (t ++ (evmRun t []).2.flatten) []).1 ++
        (evmRun (t ++ (evmRun t []).2.flatten) []).2.flatten = _
    rw [evmRun_append_noTick t (evmRun t []).2.flatten [] hnt]
    rw [evmRun_popAll (evmRun t []).2 hSnt]
    rw [evmRun_fst]
    simp

/-- Witness for the amended C4 at the concrete backtick-free input "*a". -/
theorem witness_C4 :
    NoTick ['*', 'a'] ∧
      ensure_valid_markdown (ensure_valid_markdown ['*', 'a']) =
        ensure_valid_markdown ['*', 'a'] :=
  ⟨by unfold NoTick; decide, claim_C4 ['*', 'a'] (by unfold NoTick; decide)⟩

/-! ### Basic `strip` lemmas -/

theorem strip_length_le (l : List Char) : (strip l).length ≤ l.length := by
  unfold strip
  have h1 : ((l.reverse.dropWhile isWs).reverse.dropWhile isWs).length ≤
      (l.reverse.dropWhile isWs).reverse.length := (List.dropWhile_sublist _).length_le
  have h2 : (l.reverse.dropWhile isWs).length ≤ l.reverse.length :=
    (List.dropWhile_sublist _).length_le
  simp only [List.length_reverse] at *
  omega

theorem strip_append_ws {l : List Char} {c : Char} (hc : isWs c) :
    strip (l ++ [c]) = strip l := by
  unfold strip
  rw [List.reverse_append, List.reverse_singleton, List.singleton_append,
    List.dropWhile_cons_of_pos hc]

/-- Decomposition induced by `strip`: the original list is leading
whitespace, the stripped core, and trailing whitespace. -/
theorem strip_decomp (l : List Char) :
    ∃ w1 w2 : List Char, (∀ c ∈ w1, isWs c) ∧ (∀ c ∈ w2, isWs c) ∧
      l = w1 ++ strip l ++ w2 := by
  refine ⟨(l.reverse.dropWhile isWs).reverse.takeWhile isWs,
    (l.reverse.takeWhile isWs).reverse, ?_, ?_, ?_⟩
  · intro c hc
    exact List.mem_takeWhile_imp hc
  · intro c hc
    rw [List.mem_reverse] at hc
    exact List.mem_takeWhile_imp hc
  · have hB : ((l.reverse.dropWhile isWs).reverse).takeWhile isWs ++ strip l =
        (l.reverse.dropWhile isWs).reverse := by
      unfold strip
      exact List.takeWhile_append_dropWhile _ _
    have hA : (l.reverse.dropWhile isWs).reverse ++
        (l.reverse.takeWhile isWs).reverse = l := by
      rw [← List.reverse_append, List.takeWhile_append_dropWhile, List.reverse_reverse]
    rw [hB, hA]

/-- If stripping leaves nothing, the list was all whitespace. -/
theorem ws_of_strip_nil {l : List Char} (h : strip l = []) : ∀ c ∈ l, isWs c := by
  obtain ⟨w1, w2, hw1, hw2, hdec⟩ := strip_decomp l
  rw [h] at hdec
  intro c hc
  rw [hdec] at hc
  simp only [List.append_nil, List.mem_append] at hc
  rcases hc with hc | hc
  · exact hw1 c hc
  · exact hw2 c hc

/-! ### C2: chunk length bound; non-emptiness fails -/

theorem forceSplitAux_length_le : ∀ (fuel limit : Nat) (l : List Char),
    ∀ c ∈ forceSplitAux fuel limit l, c.length ≤ limit := by
  intro fuel
  induction fuel with
  | zero => intro limit l c hc; simp [forceSplitAux] at hc
  | succ fuel ih =>
    intro limit l c hc
    cases l with
    | nil => simp [forceSplitAux] at hc
    | cons x rest =>
      rw [forceSplitAux] at hc
      rcases List.mem_cons.mp hc with rfl | h2
      · rw [List.length_take]
        exact Nat.min_le_left _ _
      · exact ih limit _ c h2

theorem strip_append_sep_le (line : List Char) (rest : List (List Char)) :
    (strip (line ++ lineSep rest)).length ≤ line.length := by
  unfold lineSep
  split
  · rw [List.append_nil]
    exact strip_length_le line
  · rw [strip_append_ws (by decide)]
    exact strip_length_le line

theorem splitCore_length_le (limit : Nat) :
    ∀ (lines : List (List Char)) (current : List Char),
      (strip current).length ≤ limit →
      ∀ c ∈ splitCore limit lines current, c.length ≤ limit := by
  intro lines
  induction lines with
  | nil =>
    intro current hcur c hc
    unfold splitCore at hc
    split at hc
    · rw [List.mem_singleton] at hc; subst hc; exact hcur
    · simp at hc
  | cons line rest ih =>
    intro current hcur c hc
    unfold splitCore at hc
    by_cases h1 : limit < line.length
    · rw [if_pos h1] at hc
      rw [List.mem_append, List.mem_append] at hc
      rcases hc with (hc | hc) | hc
      · split at hc
        · rw [List.mem_singleton] at hc; subst hc; exact hcur
        · simp at hc
      · exact forceSplitAux_length_le _ _ _ c hc
      · exact ih [] (by simp [strip]) c hc
    · rw [if_neg h1] at hc
      by_cases h2 : current.length + line.length + 1 ≤ limit
      · rw [if_pos h2] at hc
        apply ih _ ?_ c hc
        have h3 := strip_length_le (current ++ line ++ lineSep rest)
        have h4 : (lineSep rest).length ≤ 1 := by unfold lineSep; split <;> simp
        simp only [List.length_append] at h3
        omega
      · rw [if_neg h2] at hc
        rcases List.mem_cons.mp hc with rfl | h3
        · exact hcur
        · apply ih _ ?_ c h3
          have h5 := strip_append_sep_le line rest
          omega

/-- Claim C2 is refuted at a concrete input: for text "aaa" and limit 3, the
splitter emits an empty chunk (the loop appends `current_chunk.strip()`
unconditionally when a line does not fit the accumulator budget, and an
empty accumulator plus a line of exactly `limit` characters takes exactly
that branch), so not every chunk of the returned sequence is non-empty. -/
theorem cex_C2 : [] ∈ splitChunks 3 ['a', 'a', 'a'] := by decide

/-- Claim C2, amended: for every text and every limit `L > 0`, every chunk
produced by the Chunk Splitter has length at most `L`.  The non-emptiness
half of the original claim is false: a chunk that trims to the empty string
is dropped only when it is the final accumulator; mid-sequence, the loop can
emit an empty chunk (see the counterexample), which the send loop later
skips (`if not chunk_text: continue`). -/
theorem claim_C2 (text : List Char) (limit : Nat) (_hpos : 0 < limit) :
    ∀ c ∈ splitChunks limit text, c.length ≤ limit :=
  splitCore_length_le limit (splitLines text) [] (by simp [strip])

/-- Witness for the amended C2 at a concrete text and limit. -/
theorem witness_C2 :
    0 < 5 ∧ ∀ c ∈ splitChunks 5 ['a', 'b', '\n', 'c'], c.length ≤ 5 :=
  ⟨by decide, claim_C2 ['a', 'b', '\n', 'c'] 5 (by decide)⟩

theorem splitLines_ne_nil (t : List Char) : splitLines t ≠ [] := by
  cases t with
  | nil => simp [splitLines]
  | cons c rest =>
    unfold splitLines
    by_cases hc : c = '\n'
    · simp [hc]
    · simp only [if_neg hc]
      cases h : splitLines rest <;> simp

theorem rejoin_splitLines (t : List Char) : rejoin (splitLines t) = t := by
  induction t with
  | nil => rfl
  | cons c rest ih =>
    unfold splitLines
    by_cases hc : c = '\n'
    · subst hc
      simp only [if_pos rfl]
      show [] ++ lineSep (splitLines rest) ++ rejoin (splitLines rest) = '\n' :: rest
      rw [ih]
      unfold lineSep
      rw [if_neg (splitLines_ne_nil rest)]
      simp
    · simp only [if_neg hc]
      cases h : splitLines rest with
      | nil => exact absurd h (splitLines_ne_nil rest)
      | cons l ls =>
        rw [h] at ih
        show (c :: l) ++ lineSep ls ++ rejoin ls = c :: rest
        rw [← ih]
        show (c :: l) ++ lineSep ls ++ rejoin ls = c :: (l ++ lineSep ls ++ rejoin ls)
        simp

theorem Glue.prepend_ws {t : List Char} {cs : List (List Char)} {w : List Char}
    (hw : ∀ c ∈ w, isWs c) (h : Glue t cs) : Glue (w ++ t) cs := by
  cases h with
  | nil _ hw' =>
    refine Glue.nil (w ++ t) ?_
    intro c hc
    rcases List.mem_append.mp hc with hc | hc
    exacts [hw c hc, hw' c hc]
  | cons w' chunk rest chunks hw' hrest =>
    have he : w ++ (w' ++ chunk ++ rest) = (w ++ w') ++ chunk ++ rest := by simp
    rw [he]
    refine Glue.cons _ _ _ _ ?_ hrest
    intro c hc
    rcases List.mem_append.mp hc with hc | hc
    exacts [hw c hc, hw' c hc]

theorem Glue.prepend_chunks {t : List Char} {cs : List (List Char)} :
    ∀ (ss : List (List Char)), Glue t cs → Glue (ss.flatten ++ t) (ss ++ cs) := by
  intro ss
  induction ss with
  | nil => intro h; simpa using h
  | cons s ss' ih =>
    intro h
    have he : (s :: ss').flatten ++ t = [] ++ s ++ (ss'.flatten ++ t) := by simp
    rw [he]
    exact Glue.cons [] s _ _ (by simp) (ih h)

/-- Finalizing the accumulator: the accumulator glued in front of a
reconstructed tail yields a reconstruction whose first chunk is the stripped
accumulator. -/
theorem glue_cons_strip (current : List Char) {t : List Char}
    {cs : List (List Char)} (h : Glue t cs) :
    Glue (current ++ t) (strip current :: cs) := by
  obtain ⟨w1, w2, hw1, hw2, hdec⟩ := strip_decomp current
  have h2 : Glue (w2 ++ t) cs := Glue.prepend_ws hw2 h
  have h3 := Glue.cons w1 (strip current) (w2 ++ t) cs hw1 h2
  have he : current ++ t = w1 ++ strip current ++ (w2 ++ t) := by
    conv_lhs => rw [hdec]
    simp [List.append_assoc]
  rw [he]
  exact h3

theorem forceSplitAux_flatten : ∀ (fuel limit : Nat) (l : List Char),
    0 < limit → l.length ≤ fuel → (forceSplitAux fuel limit l).flatten = l := by
  intro fuel
  induction fuel with
  | zero =>
    intro limit l _ h
    have hl : l = [] := List.eq_nil_of_length_eq_zero (Nat.le_zero.mp h)
    subst hl; rfl
  | succ fuel ih =>
    intro limit l hpos h
    cases l with
    | nil => rfl
    | cons x rest =>
      show ((x :: rest).take limit ::
        forceSplitAux fuel limit ((x :: rest).drop limit)).flatten = x :: rest
      rw [List.flatten_cons, ih limit _ hpos ?_]
      · exact List.take_append_drop limit (x :: rest)
      · rw [List.length_drop]
        simp only [List.length_cons] at h ⊢
        omega

theorem lineSep_ws (rest : List (List Char)) : ∀ c ∈ lineSep rest, isWs c := by
  unfold lineSep
  split
  · simp
  · intro c hc
    rw [List.mem_singleton] at hc
    subst hc
    decide

theorem splitCore_glue (limit : Nat) (hpos : 0 < limit) :
    ∀ (lines : List (List Char)) (current : List Char),
      Glue (current ++ rejoin lines) (splitCore limit lines current) := by
  intro lines
  induction lines with
  | nil =>
    intro current
    show Glue (current ++ rejoin []) (if strip current ≠ [] then [strip current] else [])
    rw [show rejoin [] = ([] : List Char) from rfl, List.append_nil]
    by_cases h : strip current = []
    · rw [if_neg (not_not_intro h)]
      exact Glue.nil current (ws_of_strip_nil h)
    · rw [if_pos h]
      have := glue_cons_strip current (Glue.nil [] (by simp))
      simpa using this
  | cons line rest ih =>
    intro current
    show Glue (current ++ rejoin (line :: rest)) (splitCore limit (line :: rest) current)
    unfold splitCore
    by_cases h1 : limit < line.length
    · rw [if_pos h1]
      have hrec : Glue (rejoin rest) (splitCore limit rest []) := by simpa using ih []
      have h2 : Glue (lineSep rest ++ rejoin rest) (splitCore limit rest []) :=
        Glue.prepend_ws (lineSep_ws rest) hrec
      have h3 := Glue.prepend_chunks (forceSplit limit line) h2
      rw [forceSplit, forceSplitAux_flatten line.length limit line hpos le_rfl] at h3
      have hForce : Glue (rejoin (line :: rest))
          (forceSplit limit line ++ splitCore limit rest []) := by
        show Glue (line ++ lineSep rest ++ rejoin rest) _
        simpa [List.append_assoc] using h3
      by_cases h4 : current = []
      · subst h4
        rw [if_neg (not_not_intro rfl)]
        simpa using hForce
      · rw [if_pos h4]
        have := glue_cons_strip current hForce
        simpa using this
    · rw [if_neg h1]
      by_cases h2 : current.length + line.length + 1 ≤ limit
      · rw [if_pos h2]
        have := ih (current ++ line ++ lineSep rest)
        show Glue (current ++ (line ++ lineSep rest ++ rejoin rest)) _
        simpa [List.append_assoc] using this
      · rw [if_neg h2]
        have hrec : Glue (rejoin (line :: rest)) (splitCore limit rest (line ++ lineSep rest)) := by
          show Glue (line ++ lineSep rest ++ rejoin rest) _
          simpa [List.append_assoc] using ih (line ++ lineSep rest)
        exact glue_cons_strip current hrec

/-- Claim C5: for every text and limit `L > 0`, the text is reconstructed
from the chunks produced by the Chunk Splitter by interleaving whitespace-only
glue (the trimmed boundary whitespace, including the newline separators
removed between originally-adjacent lines) around the chunks in ordinal
order. -/
theorem claim_C5 (text : List Char) (limit : Nat) (hpos : 0 < limit) :
    Glue text (splitChunks limit text) := by
  have h := splitCore_glue limit hpos (splitLines text) []
  rwa [List.nil_append, rejoin_splitLines] at h

/-- Witness for C5 at a concrete text and limit. -/
theorem witness_C5 : Glue ['a', '\n', 'b'] (splitChunks 2 ['a', '\n', 'b']) :=
  claim_C5 ['a', '\n', 'b'] 2 (by decide)

theorem isDuplicate_of_mem {buf : List MGItem} {it : MGItem}
    (h : it.message_id ∈ buf.map MGItem.message_id) : isDuplicate buf it = true := by
  rw [List.mem_map] at h
  obtain ⟨img, himg, hid⟩ := h
  unfold isDuplicate
  rw [List.any_eq_true]
  exact ⟨img, himg, by simp [hid]⟩

theorem not_mem_of_not_duplicate {buf : List MGItem} {it : MGItem}
    (h : ¬ isDuplicate buf it = true) : it.message_id ∉ buf.map MGItem.message_id :=
  fun hmem => h (isDuplicate_of_mem hmem)

theorem addPhotoToGroup_nodup (maxInput : Nat) :
    ∀ (arrivals : List MGItem) (buf : List MGItem),
      (buf.map MGItem.message_id).Nodup →
      ((arrivals.foldl (addPhotoToGroup maxInput) buf).map MGItem.message_id).Nodup := by
  intro arrivals
  induction arrivals with
  | nil => intro buf h; exact h
  | cons a rest ih =>
    intro buf h
    apply ih
    unfold addPhotoToGroup
    split
    · rename_i hcond
      rw [List.map_append]
      simp only [List.map_cons, List.map_nil]
      rw [List.nodup_append]
      refine ⟨h, List.nodup_singleton _, ?_⟩
      intro x hx hx2
      rw [List.mem_singleton] at hx2
      subst hx2
      exact not_mem_of_not_duplicate hcond.1 hx
    · exact h

/-- Claim C7: duplicate arrivals are silently dropped.  First conjunct: after
any sequence of `add_item` calls starting from the empty buffer, the buffer
holds at most one entry per `message_id` (the source's sequence id).  Second
conjunct: an arriving item whose `message_id` already occurs in the buffer
leaves the buffer unchanged, so duplicates never increase the item count. -/
theorem claim_C7 (maxInput : Nat) (arrivals : List MGItem) :
    ((arrivals.foldl (addPhotoToGroup maxInput) []).map MGItem.message_id).Nodup ∧
      ∀ (buf : List MGItem) (it : MGItem),
        it.message_id ∈ buf.map MGItem.message_id →
        addPhotoToGroup maxInput buf it = buf := by
  constructor
  · exact addPhotoToGroup_nodup maxInput arrivals [] (by simp)
  · intro buf it hmem
    unfold addPhotoToGroup
    rw [if_neg]
    intro hcond
    exact hcond.1 (isDuplicate_of_mem hmem)

/-- Witness for C7 at a concrete arrival sequence and a concrete duplicate. -/
theorem witness_C7 :
    (([mgItemA, mgItemB, mgItemA].foldl (addPhotoToGroup 10) []).map
        MGItem.message_id).Nodup ∧
      addPhotoToGroup 10 [mgItemA] mgItemA = [mgItemA] :=
  ⟨(claim_C7 10 [mgItemA, mgItemB, mgItemA]).1,
    (claim_C7 10 [mgItemA, mgItemB, mgItemA]).2 [mgItemA] mgItemA (by decide)⟩

/-- Claim C8: (a) flushing an id that is not in the buffer is a no-op — the
buffer is unchanged and nothing is processed (no AI call, nothing sent);
(b) after any flush the id is no longer in the buffer (a submission is
removed at the moment it is read, before further processing); (c) hence a
second flush of the same id is a no-op: a submission is processed at most
once and never read after removal. -/
theorem claim_C8 (buf : MGBuffer) (id : String) :
    (buf id = none → flushMediaGroup buf id = ⟨buf, none⟩) ∧
      (flushMediaGroup buf id).buffer id = none ∧
      flushMediaGroup (flushMediaGroup buf id).buffer id =
        ⟨(flushMediaGroup buf id).buffer, none⟩ := by
  have habsent : ∀ (b : MGBuffer), b id = none → flushMediaGroup b id = ⟨b, none⟩ := by
    intro b hb
    unfold flushMediaGroup
    rw [hb]
  have hremoved : (flushMediaGroup buf id).buffer id = none := by
    unfold flushMediaGroup
    split
    · rename_i heq
      exact heq
    · rename_i items heq
      show ((if items = [] then
              ({ buffer := fun k => if k = id then none else buf k,
                 processed := none } : FlushResult)
            else
              { buffer := fun k => if k = id then none else buf k,
                processed := some items }).buffer) id = none
      split <;> simp
  exact ⟨habsent buf, hremoved, habsent _ hremoved⟩

/-- Witness for C8: flushing an absent id on a concrete buffer is a no-op,
and after flushing a present id the id is gone. -/
theorem witness_C8 :
    flushMediaGroup c8Buf ("g2") = ⟨c8Buf, none⟩ ∧
      (flushMediaGroup c8Buf ("g1")).buffer ("g1") = none :=
  ⟨(claim_C8 c8Buf ("g2")).1 (by unfold c8Buf; simp),
    (claim_C8 c8Buf ("g1")).2.1⟩

/-- Claim C3 is refuted at a concrete buffer: item #2 is the only triggered
item and its caption is empty, so the claim's precedence (2) prescribes the
first non-empty caption "hello"; the code instead skips the second scan
(the first scan already assigned the empty string, so `final_text_prompt`
is no longer `None`) and falls through to the default prompt. -/
theorem cex_C3 :
    claimPrompt [c3Item1, c3Item2] ("Describe.") = ("hello") ∧
      finalTextPrompt [c3Item1, c3Item2] ("Describe.") = ("Describe.") := by
  constructor <;> rfl

theorem scanTriggered_eq_find (items : List MGItem) :
    scanTriggered items =
      (items.find? (fun it => isTriggerItem it)).bind MGItem.caption_for_ai := by
  induction items with
  | nil => rfl
  | cons it rest ih =>
    cases h : isTriggerItem it with
    | true =>
      rw [List.find?_cons_of_pos _ h]
      unfold scanTriggered
      rw [if_pos h]
      rfl
    | false =>
      rw [List.find?_cons_of_neg _ (by simp [h])]
      unfold scanTriggered
      rw [if_neg (by simp [h])]
      exact ih

/-- Claim C3, amended.  First conjunct: the code's aggregate-prompt choice
follows this precedence: (1) the caption of the first trigger-matched or
reply-to-bot item, if non-empty — but if that item's caption is the empty
string the default prompt is chosen directly (the first-non-empty-caption
fallback is NOT consulted; that fallback applies only when no item is
triggered or the triggered caption is Python `None`); (2) otherwise the
first non-empty caption in arrival order; (3) otherwise the default prompt.
Second conjunct: the claim's concrete example (a 3-item buffer where only
item #2 is triggered, with caption "describe these") does yield "describe
these". -/
theorem claim_C3 :
    (∀ (items : List MGItem) (defaultPrompt : String),
        finalTextPrompt items defaultPrompt = amendedPrompt items defaultPrompt) ∧
      finalTextPrompt [c3Item4, c3Item3, c3Item4] ("Describe.") = ("describe these") := by
  constructor
  · intro items d
    unfold finalTextPrompt amendedPrompt
    rw [scanTriggered_eq_find]
    cases hf : items.find? (fun it => isTriggerItem it) with
    | none => rfl
    | some it =>
      show (match (match it.caption_for_ai with
              | some s => some s
              | none => scanFirstCaption items) with
            | some s => if s = "" then d else s
            | none => d) =
          (match it.caption_for_ai with
            | some s => if s = "" then d else s
            | none =>
              match scanFirstCaption items with
              | some s => if s = "" then d else s
              | none => d)
      cases it.caption_for_ai with
      | none => rfl
      | some s => rfl
  · rfl

/-- Claim C1 is refuted at a concrete input: with two chunks and a transport
rejecting both of chunk 0's sends (marked-up, then plain), the trace still
contains a send of chunk 1.  The source's `break` ends only the inner retry
loop; the outer chunk loop has no break, so the engine does not stop
processing the remaining chunks and does not "send none of them". -/
theorem cex_C1 :
    (deliverChunks c1Oracle true none [['a'], ['b']]).any
      (fun e => match e with
        | Event.sendMsg 1 _ _ _ _ => true
        | _ => false) = true := by decide

theorem attemptLoop_mem_send (oracle : Oracle) (i : Nat) (chunkText : List Char)
    (replyArg curReply : Option Nat) (fuel attempt : Nat) (textC : List Char)
    (isMd : Bool) :
    Event.sendMsg i textC isMd curReply (oracle i attempt) ∈
      attemptLoop oracle i chunkText replyArg curReply (fuel + 1) attempt textC isMd := by
  unfold attemptLoop
  cases h : oracle i attempt with
  | success => exact List.mem_singleton.mpr rfl
  | retryAfter d => exact List.mem_cons_self _ _
  | badRequestParse =>
    split
    · exact List.mem_cons_self _ _
    · exact List.mem_cons_self _ _
  | badRequestOther => exact List.mem_cons_self _ _
  | telegramError => exact List.mem_cons_self _ _
  | otherError => exact List.mem_cons_self _ _

theorem processChunk_mem_send (oracle : Oracle) (i : Nat) (chunkText : List Char)
    (isMdParam : Bool) (replyArg : Option Nat) :
    ∃ t m, Event.sendMsg i t m (if i = 0 then replyArg else none) (oracle i 0) ∈
      processChunk oracle i chunkText isMdParam replyArg := by
  refine ⟨(chunkTextMode chunkText isMdParam).1,
    (chunkTextMode chunkText isMdParam).2, ?_⟩
  unfold processChunk
  exact attemptLoop_mem_send oracle i chunkText replyArg _ maxRetriesMarkdownFail 0 _ _

theorem chunkLoop_progress (oracle : Oracle) (md : Bool) (replyArg : Option Nat)
    (n : Nat) :
    ∀ (chunks : List (List Char)) (i0 j : Nat) (hj : j < chunks.length),
      chunks.get ⟨j, hj⟩ ≠ [] →
      ∃ t m r o, Event.sendMsg (i0 + j) t m r o ∈
        chunkLoop oracle md replyArg n i0 chunks := by
  intro chunks
  induction chunks with
  | nil => intro i0 j hj; simp at hj
  | cons c rest ih =>
    intro i0 j hj hne
    cases j with
    | zero =>
      have hc : c ≠ [] := hne
      obtain ⟨t, m, hmem⟩ := processChunk_mem_send oracle i0 c md replyArg
      refine ⟨t, m, (if i0 = 0 then replyArg else none), oracle i0 0, ?_⟩
      rw [Nat.add_zero]
      unfold chunkLoop
      rw [if_neg hc]
      exact List.mem_append_left _ (List.mem_append_left _ hmem)
    | succ j' =>
      have hj' : j' < rest.length := by
        simp only [List.length_cons] at hj
        omega
      obtain ⟨t, m, r, o, hmem⟩ := ih (i0 + 1) j' hj' hne
      refine ⟨t, m, r, o, ?_⟩
      have harith : i0 + (j' + 1) = (i0 + 1) + j' := by omega
      rw [harith]
      unfold chunkLoop
      exact List.mem_append_right _ hmem

/-- A marked-up send rejected as unparseable on the chunk's first attempt is
downgraded: the loop continues with the raw chunk text in plain mode. -/
theorem attemptLoop_parse_downgrade (oracle : Oracle) (i : Nat)
    (chunkText : List Char) (replyArg curReply : Option Nat) (fuel : Nat)
    (textC : List Char) (h : oracle i 0 = SendOutcome.badRequestParse) :
    attemptLoop oracle i chunkText replyArg curReply (fuel + 1) 0 textC true =
      Event.sendMsg i textC true curReply SendOutcome.badRequestParse ::
        attemptLoop oracle i chunkText replyArg curReply fuel 1 chunkText false := by
  conv_lhs => rw [attemptLoop]
  rw [h]
  rfl

/-- A plain-mode send rejected as unparseable ends the chunk: the error
notice is emitted only for chunk 0. -/
theorem attemptLoop_parse_plain (oracle : Oracle) (i : Nat)
    (chunkText : List Char) (replyArg curReply : Option Nat) (fuel attempt : Nat)
    (textC : List Char) (h : oracle i attempt = SendOutcome.badRequestParse) :
    attemptLoop oracle i chunkText replyArg curReply (fuel + 1) attempt textC false =
      Event.sendMsg i textC false curReply SendOutcome.badRequestParse ::
        (if i = 0 then [Event.errorNotice i] else []) := by
  conv_lhs => rw [attemptLoop]
  rw [h]
  rfl

/-- Claim C1, amended.  First conjunct: a chunk whose marked-up send is
rejected as unparseable is retried exactly once, in plain format with the
raw chunk text; if that plain send is also rejected, exactly one
user-visible error notice is emitted, and only when the failing chunk is
chunk 0 — the per-chunk trace is exactly those two sends plus the possible
notice.  Second conjunct (replacing the claim's false "stops processing all
remaining chunks"): whatever the outcomes, every non-empty chunk of the
sequence receives at least one send attempt — the engine abandons only the
failing chunk and continues with the rest. -/
theorem claim_C1 :
    (∀ (oracle : Oracle) (i : Nat) (chunk : List Char) (replyArg : Option Nat),
        oracle i 0 = SendOutcome.badRequestParse →
        oracle i 1 = SendOutcome.badRequestParse →
        ¬ (strip (ensure_valid_markdown chunk) = [] ∧ strip chunk ≠ []) →
        processChunk oracle i chunk true replyArg =
          [Event.sendMsg i (ensure_valid_markdown chunk) true
              (if i = 0 then replyArg else none) SendOutcome.badRequestParse,
            Event.sendMsg i chunk false
              (if i = 0 then replyArg else none) SendOutcome.badRequestParse] ++
            (if i = 0 then [Event.errorNotice i] else [])) ∧
      ∀ (oracle : Oracle) (md : Bool) (replyArg : Option Nat)
        (chunks : List (List Char)) (j : Nat) (hj : j < chunks.length),
        chunks.get ⟨j, hj⟩ ≠ [] →
        ∃ t m r o, Event.sendMsg j t m r o ∈ deliverChunks oracle md replyArg chunks := by
  constructor
  · intro oracle i chunk replyArg h0 h1 hnf
    have htm : chunkTextMode chunk true = (ensure_valid_markdown chunk, true) := by
      show (if strip (ensure_valid_markdown chunk) = [] ∧ strip chunk ≠ []
        then (chunk, false) else (ensure_valid_markdown chunk, true)) = _
      rw [if_neg hnf]
    unfold processChunk
    rw [htm]
    show attemptLoop oracle i chunk replyArg (if i = 0 then replyArg else none)
      2 0 (ensure_valid_markdown chunk) true = _
    rw [attemptLoop_parse_downgrade oracle i chunk replyArg _ 1 _ h0,
      attemptLoop_parse_plain oracle i chunk replyArg _ 0 1 chunk h1]
    rfl
  · intro oracle md replyArg chunks j hj hne
    have h := chunkLoop_progress oracle md replyArg chunks.length chunks 0 j hj hne
    rwa [Nat.zero_add] at h

/-- Witness for the amended C1 at concrete inputs: chunk 0's two sends are
both rejected, yielding exactly the markdown send, the plain retry, and one
notice; and chunk 1 of a two-chunk delivery is still attempted. -/
theorem witness_C1 :
    processChunk c1Oracle 0 ['a'] true none =
        [Event.sendMsg 0 (ensure_valid_markdown ['a']) true
            (if 0 = 0 then none else none) SendOutcome.badRequestParse,
          Event.sendMsg 0 ['a'] false
            (if 0 = 0 then none else none) SendOutcome.badRequestParse] ++
          (if 0 = 0 then [Event.errorNotice 0] else []) ∧
      ∃ t m r o, Event.sendMsg 1 t m r o ∈
        deliverChunks c1Oracle true none [['a'], ['b']] :=
  ⟨claim_C1.1 c1Oracle 0 ['a'] none rfl rfl (by decide),
    claim_C1.2 c1Oracle true none [['a'], ['b']] 1 (by decide) (by decide)⟩

/-- Claim C6 is refuted at a concrete input: the chunk's first (marked-up)
send is format-rejected and consumes attempt 0 on the downgrade; the plain
retry is then rate-limited on attempt 1, the engine sleeps — and the trace
ends with that sleep: the rate-limited send is never retried, contradicting
"sleeps ... and then retries that same chunk ... regardless of what other
attempts (such as a format downgrade) that chunk has already consumed". -/
theorem cex_C6 :
    processChunk c6Oracle 0 ['a'] true none =
        [Event.sendMsg 0 ['a'] true none SendOutcome.badRequestParse,
          Event.sendMsg 0 ['a'] false none (SendOutcome.retryAfter 5),
          Event.sleep 5] ∧
      (processChunk c6Oracle 0 ['a'] true none).getLast? = some (Event.sleep 5) := by
  decide

/-- A rate-limited attempt: emit the send and the provider-delay sleep, then
continue the loop with the SAME text and the SAME format. -/
theorem attemptLoop_retry (oracle : Oracle) (i : Nat) (chunkText : List Char)
    (replyArg curReply : Option Nat) (fuel attempt : Nat) (textC : List Char)
    (isMd : Bool) (d : Nat) (h : oracle i attempt = SendOutcome.retryAfter d) :
    attemptLoop oracle i chunkText replyArg curReply (fuel + 1) attempt textC isMd =
      Event.sendMsg i textC isMd curReply (SendOutcome.retryAfter d) ::
        Event.sleep d ::
        attemptLoop oracle i chunkText replyArg curReply fuel (attempt + 1) textC isMd := by
  conv_lhs => rw [attemptLoop]
  rw [h]

theorem attemptLoop_success_eq (oracle : Oracle) (i : Nat) (chunkText : List Char)
    (replyArg curReply : Option Nat) (fuel attempt : Nat) (textC : List Char)
    (isMd : Bool) (h : oracle i attempt = SendOutcome.success) :
    attemptLoop oracle i chunkText replyArg curReply (fuel + 1) attempt textC isMd =
      [Event.sendMsg i textC isMd curReply SendOutcome.success] := by
  conv_lhs => rw [attemptLoop]
  rw [h]

theorem attemptLoop_parse_eq (oracle : Oracle) (i : Nat) (chunkText : List Char)
    (replyArg curReply : Option Nat) (fuel attempt : Nat) (textC : List Char)
    (isMd : Bool) (h : oracle i attempt = SendOutcome.badRequestParse) :
    attemptLoop oracle i chunkText replyArg curReply (fuel + 1) attempt textC isMd =
      if (isMd = true) ∧ attempt < maxRetriesMarkdownFail then
        Event.sendMsg i textC isMd curReply SendOutcome.badRequestParse ::
          attemptLoop oracle i chunkText replyArg curReply fuel (attempt + 1)
            chunkText false
      else
        Event.sendMsg i textC isMd curReply SendOutcome.badRequestParse ::
          (if i = 0 then [Event.errorNotice i] else []) := by
  conv_lhs => rw [attemptLoop]
  rw [h]

theorem attemptLoop_badOther_eq (oracle : Oracle) (i : Nat) (chunkText : List Char)
    (replyArg curReply : Option Nat) (fuel attempt : Nat) (textC : List Char)
    (isMd : Bool) (h : oracle i attempt = SendOutcome.badRequestOther) :
    attemptLoop oracle i chunkText replyArg curReply (fuel + 1) attempt textC isMd =
      Event.sendMsg i textC isMd curReply SendOutcome.badRequestOther ::
        (if i = 0 then [Event.errorNotice i] else []) := by
  conv_lhs => rw [attemptLoop]
  rw [h]

theorem attemptLoop_telegram_eq (oracle : Oracle) (i : Nat) (chunkText : List Char)
    (replyArg curReply : Option Nat) (fuel attempt : Nat) (textC : List Char)
    (isMd : Bool) (h : oracle i attempt = SendOutcome.telegramError) :
    attemptLoop oracle i chunkText replyArg curReply (fuel + 1) attempt textC isMd =
      Event.sendMsg i textC isMd curReply SendOutcome.telegramError ::
        (if i = 0 then [Event.errorNotice i] else []) := by
  conv_lhs => rw [attemptLoop]
  rw [h]

theorem attemptLoop_other_eq (oracle : Oracle) (i : Nat) (chunkText : List Char)
    (replyArg curReply : Option Nat) (fuel attempt : Nat) (textC : List Char)
    (isMd : Bool) (h : oracle i attempt = SendOutcome.otherError) :
    attemptLoop oracle i chunkText replyArg curReply (fuel + 1) attempt textC isMd =
      Event.sendMsg i textC isMd curReply SendOutcome.otherError ::
        (if i = 0 ∧ replyArg = none then [Event.errorNotice i] else []) := by
  conv_lhs => rw [attemptLoop]
  rw [h]

/-- Whatever the outcome, an attempt with fuel left begins with a send of the
current text in the current format. -/
theorem attemptLoop_head (oracle : Oracle) (i : Nat) (chunkText : List Char)
    (replyArg curReply : Option Nat) (fuel attempt : Nat) (textC : List Char)
    (isMd : Bool) :
    (attemptLoop oracle i chunkText replyArg curReply (fuel + 1) attempt textC isMd).head? =
      some (Event.sendMsg i textC isMd curReply (oracle i attempt)) := by
  cases h : oracle i attempt with
  | success =>
    rw [attemptLoop_success_eq oracle i chunkText replyArg curReply fuel attempt textC isMd h]
    rfl
  | retryAfter d =>
    rw [attemptLoop_retry oracle i chunkText replyArg curReply fuel attempt textC isMd d h]
    rfl
  | badRequestParse =>
    rw [attemptLoop_parse_eq oracle i chunkText replyArg curReply fuel attempt textC isMd h]
    split <;> rfl
  | badRequestOther =>
    rw [attemptLoop_badOther_eq oracle i chunkText replyArg curReply fuel attempt textC isMd h]
    rfl
  | telegramError =>
    rw [attemptLoop_telegram_eq oracle i chunkText replyArg curReply fuel attempt textC isMd h]
    rfl
  | otherError =>
    rw [attemptLoop_other_eq oracle i chunkText replyArg curReply fuel attempt textC isMd h]
    rfl

theorem countP_notice (i : Nat) :
    (if i = 0 then [Event.errorNotice i] else []).countP isSendEvent = 0 := by
  split <;> rfl

theorem countP_notice2 (i : Nat) (replyArg : Option Nat) :
    (if i = 0 ∧ replyArg = none then [Event.errorNotice i] else []).countP
      isSendEvent = 0 := by
  split <;> rfl

/-- The retry loop performs at most `fuel` sends. -/
theorem attemptLoop_countSends_le (oracle : Oracle) (i : Nat)
    (chunkText : List Char) (replyArg curReply : Option Nat) :
    ∀ (fuel attempt : Nat) (textC : List Char) (isMd : Bool),
      (attemptLoop oracle i chunkText replyArg curReply fuel attempt
        textC isMd).countP isSendEvent ≤ fuel := by
  intro fuel
  induction fuel with
  | zero =>
    intro attempt textC isMd
    rw [show attemptLoop oracle i chunkText replyArg curReply 0 attempt textC isMd
      = [] from rfl]
    simp
  | succ fuel ih =>
    intro attempt textC isMd
    cases h : oracle i attempt with
    | success =>
      rw [attemptLoop_success_eq oracle i chunkText replyArg curReply fuel attempt textC isMd h]
      simp [List.countP_cons, isSendEvent]
    | retryAfter d =>
      rw [attemptLoop_retry oracle i chunkText replyArg curReply fuel attempt textC isMd d h]
      have hr := ih (attempt + 1) textC isMd
      simp [List.countP_cons, isSendEvent]
      omega
    | badRequestParse =>
      rw [attemptLoop_parse_eq oracle i chunkText replyArg curReply fuel attempt textC isMd h]
      split
      · have hr := ih (attempt + 1) chunkText false
        simp [List.countP_cons, isSendEvent]
        omega
      · rw [List.countP_cons, countP_notice]
        simp [isSendEvent]
    | badRequestOther =>
      rw [attemptLoop_badOther_eq oracle i chunkText replyArg curReply fuel attempt textC isMd h,
        List.countP_cons, countP_notice]
      simp [isSendEvent]
    | telegramError =>
      rw [attemptLoop_telegram_eq oracle i chunkText replyArg curReply fuel attempt textC isMd h,
        List.countP_cons, countP_notice]
      simp [isSendEvent]
    | otherError =>
      rw [attemptLoop_other_eq oracle i chunkText replyArg curReply fuel attempt textC isMd h,
        List.countP_cons, countP_notice2]
      simp [isSendEvent]

/-- Claim C6, amended.  First conjunct: a chunk whose FIRST attempt is
rate-limited gets the provider-delay sleep and is then retried with the same
text and the same format (the event after the sleep is a send of the same
text/format).  Second conjunct (replacing the claim's false "regardless of
what other attempts that chunk has already consumed"): each chunk performs
at most `maxRetriesMarkdownFail + 1 = 2` sends in total — the rate-limit
retry shares the budget with the format downgrade, so a rate limit on the
chunk's last permitted attempt sleeps but does not retry (see the
counterexample), and at most one automatic rate-limit retry per chunk ever
happens. -/
theorem claim_C6 :
    (∀ (oracle : Oracle) (i : Nat) (chunkText : List Char)
        (replyArg curReply : Option Nat) (textC : List Char) (isMd : Bool) (d : Nat),
        oracle i 0 = SendOutcome.retryAfter d →
        attemptLoop oracle i chunkText replyArg curReply
            (maxRetriesMarkdownFail + 1) 0 textC isMd =
          Event.sendMsg i textC isMd curReply (SendOutcome.retryAfter d) ::
            Event.sleep d ::
            attemptLoop oracle i chunkText replyArg curReply
              maxRetriesMarkdownFail 1 textC isMd ∧
        (attemptLoop oracle i chunkText replyArg curReply
            maxRetriesMarkdownFail 1 textC isMd).head? =
          some (Event.sendMsg i textC isMd curReply (oracle i 1))) ∧
      ∀ (oracle : Oracle) (i : Nat) (chunkText : List Char) (isMdParam : Bool)
        (replyArg : Option Nat),
        (processChunk oracle i chunkText isMdParam replyArg).countP isSendEvent ≤ 2 := by
  constructor
  · intro oracle i chunkText replyArg curReply textC isMd d h0
    refine ⟨attemptLoop_retry oracle i chunkText replyArg curReply
      maxRetriesMarkdownFail 0 textC isMd d h0, ?_⟩
    exact attemptLoop_head oracle i chunkText replyArg curReply 0 1 textC isMd
  · intro oracle i chunkText isMdParam replyArg
    exact attemptLoop_countSends_le oracle i chunkText replyArg _ 2 0 _ _

/-- Witness for the amended C6 at concrete inputs. -/
theorem witness_C6 :
    (attemptLoop c6WOracle 0 ['a'] none none (maxRetriesMarkdownFail + 1) 0 ['a'] true =
        Event.sendMsg 0 ['a'] true none (SendOutcome.retryAfter 3) ::
          Event.sleep 3 ::
          attemptLoop c6WOracle 0 ['a'] none none maxRetriesMarkdownFail 1 ['a'] true ∧
      (attemptLoop c6WOracle 0 ['a'] none none maxRetriesMarkdownFail 1 ['a'] true).head? =
        some (Event.sendMsg 0 ['a'] true none (c6WOracle 0 1))) ∧
      (processChunk c6WOracle 0 ['a'] true none).countP isSendEvent ≤ 2 :=
  ⟨claim_C6.1 c6WOracle 0 ['a'] none none ['a'] true 3 rfl,
    claim_C6.2 c6WOracle 0 ['a'] true none⟩

/-! ### C9: only the first chunk carries the reply-threading reference -/

/-- Every send event the retry loop emits carries the chunk's index and the
`current_reply_id` the loop was invoked with. -/
theorem attemptLoop_reply (oracle : Oracle) (i : Nat) (chunkText : List Char)
    (replyArg curReply : Option Nat) :
    ∀ (fuel attempt : Nat) (textC : List Char) (isMd : Bool) (e : Event),
      e ∈ attemptLoop oracle i chunkText replyArg curReply fuel attempt textC isMd →
      ∀ idx t m r o, e = Event.sendMsg idx t m r o → idx = i ∧ r = curReply := by
  intro fuel
  induction fuel with
  | zero =>
    intro attempt textC isMd e he
    rw [show attemptLoop oracle i chunkText replyArg curReply 0 attempt textC isMd
      = [] from rfl] at he
    simp at he
  | succ fuel ih =>
    intro attempt textC isMd e he idx t m r o heq
    cases h : oracle i attempt with
    | success =>
      rw [attemptLoop_success_eq oracle i chunkText replyArg curReply fuel attempt
        textC isMd h, List.mem_singleton] at he
      subst he
      injection heq with h1 h2 h3 h4 h5
      exact ⟨h1.symm, h4.symm⟩
    | retryAfter d =>
      rw [attemptLoop_retry oracle i chunkText replyArg curReply fuel attempt
        textC isMd d h, List.mem_cons, List.mem_cons] at he
      rcases he with rfl | rfl | he
      · injection heq with h1 h2 h3 h4 h5
        exact ⟨h1.symm, h4.symm⟩
      · simp at heq
      · exact ih (attempt + 1) textC isMd e he idx t m r o heq
    | badRequestParse =>
      rw [attemptLoop_parse_eq oracle i chunkText replyArg curReply fuel attempt
        textC isMd h] at he
      split at he
      · rw [List.mem_cons] at he
        rcases he with rfl | he
        · injection heq with h1 h2 h3 h4 h5
          exact ⟨h1.symm, h4.symm⟩
        · exact ih (attempt + 1) chunkText false e he idx t m r o heq
      · rw [List.mem_cons] at he
        rcases he with rfl | he
        · injection heq with h1 h2 h3 h4 h5
          exact ⟨h1.symm, h4.symm⟩
        · split at he
          · rw [List.mem_singleton] at he
            subst he
            simp at heq
          · simp at he
    | badRequestOther =>
      rw [attemptLoop_badOther_eq oracle i chunkText replyArg curReply fuel attempt
        textC isMd h, List.mem_cons] at he
      rcases he with rfl | he
      · injection heq with h1 h2 h3 h4 h5
        exact ⟨h1.symm, h4.symm⟩
      · split at he
        · rw [List.mem_singleton] at he
          subst he
          simp at heq
        · simp at he
    | telegramError =>
      rw [attemptLoop_telegram_eq oracle i chunkText replyArg curReply fuel attempt
        textC isMd h, List.mem_cons] at he
      rcases he with rfl | he
      · injection heq with h1 h2 h3 h4 h5
        exact ⟨h1.symm, h4.symm⟩
      · split at he
        · rw [List.mem_singleton] at he
          subst he
          simp at heq
        · simp at he
    | otherError =>
      rw [attemptLoop_other_eq oracle i chunkText replyArg curReply fuel attempt
        textC isMd h, List.mem_cons] at he
      rcases he with rfl | he
      · injection heq with h1 h2 h3 h4 h5
        exact ⟨h1.symm, h4.symm⟩
      · split at he
        · rw [List.mem_singleton] at he
          subst he
          simp at heq
        · simp at he

/-- Every send event of the chunk loop carries the caller's reply reference
iff its chunk index is 0. -/
theorem chunkLoop_reply (oracle : Oracle) (md : Bool) (replyArg : Option Nat)
    (n : Nat) :
    ∀ (chunks : List (List Char)) (i0 : Nat) (e : Event),
      e ∈ chunkLoop oracle md replyArg n i0 chunks →
      ∀ idx t m r o, e = Event.sendMsg idx t m r o →
        r = (if idx = 0 then replyArg else none) := by
  intro chunks
  induction chunks with
  | nil => intro i0 e he; simp [chunkLoop] at he
  | cons c rest ih =>
    intro i0 e he idx t m r o heq
    unfold chunkLoop at he
    rw [List.mem_append] at he
    rcases he with he | he
    · by_cases hc : c = []
      · rw [if_pos hc] at he
        simp at he
      · rw [if_neg hc, List.mem_append] at he
        rcases he with he | he
        · simp only [processChunk] at he
          obtain ⟨hidx, hr⟩ := attemptLoop_reply oracle i0 c replyArg
            (if i0 = 0 then replyArg else none) (maxRetriesMarkdownFail + 1) 0
            (chunkTextMode c md).1 (chunkTextMode c md).2 e he idx t m r o heq
          subst hidx
          exact hr
        · split at he
          · rw [List.mem_singleton] at he
            subst he
            simp at heq
          · simp at he
    · exact ih (i0 + 1) e he idx t m r o heq

theorem processChunk_success (i : Nat) (chunkText : List Char) (isMdParam : Bool)
    (replyArg : Option Nat) :
    processChunk successOracle i chunkText isMdParam replyArg =
      [Event.sendMsg i (chunkTextMode chunkText isMdParam).1
        (chunkTextMode chunkText isMdParam).2
        (if i = 0 then replyArg else none) SendOutcome.success] := by
  unfold processChunk
  exact attemptLoop_success_eq successOracle i chunkText replyArg _ 1 0 _ _ rfl

theorem chunkLoop_success_sends (md : Bool) (replyArg : Option Nat) (n : Nat) :
    ∀ (chunks : List (List Char)) (i0 : Nat), (∀ c ∈ chunks, c ≠ []) →
      (chunkLoop successOracle md replyArg n i0 chunks).filterMap sendReply =
        (List.range chunks.length).map
          (fun j => if i0 + j = 0 then replyArg else none) := by
  intro chunks
  induction chunks with
  | nil => intro i0 _; rfl
  | cons c rest ih =>
    intro i0 hne
    unfold chunkLoop
    rw [if_neg (hne c (List.mem_cons_self c rest))]
    rw [List.filterMap_append, List.filterMap_append]
    rw [processChunk_success]
    have hpace : (if 1 < n ∧ i0 < n - 1 then [Event.pace] else []).filterMap
        sendReply = [] := by split <;> rfl
    rw [hpace]
    rw [ih (i0 + 1) (fun x hx => hne x (List.mem_cons_of_mem c hx))]
    rw [List.length_cons, List.range_succ_eq_map, List.map_cons, List.map_map]
    rw [show (([Event.sendMsg i0 (chunkTextMode c md).1 (chunkTextMode c md).2
      (if i0 = 0 then replyArg else none) SendOutcome.success]).filterMap sendReply)
      = [if i0 = 0 then replyArg else none] from rfl]
    simp only [List.append_nil, Nat.add_zero, List.singleton_append]
    congr 1
    apply List.map_congr_left
    intro a _
    show (if i0 + 1 + a = 0 then replyArg else none) =
      (if i0 + (a + 1) = 0 then replyArg else none)
    have harith : i0 + (a + 1) = i0 + 1 + a := by omega
    rw [harith]

theorem splitLines_no_newline : ∀ (l : List Char), (∀ c ∈ l, c ≠ '\n') →
    splitLines l = [l] := by
  intro l
  induction l with
  | nil => intro _; rfl
  | cons c rest ih =>
    intro h
    unfold splitLines
    rw [if_neg (h c (List.mem_cons_self c rest))]
    rw [ih (fun x hx => h x (List.mem_cons_of_mem c hx))]

theorem forceSplitAux_ne_nil : ∀ (fuel limit : Nat) (l : List Char), 0 < limit →
    ∀ c ∈ forceSplitAux fuel limit l, c ≠ [] := by
  intro fuel
  induction fuel with
  | zero => intro limit l _ c hc; simp [forceSplitAux] at hc
  | succ fuel ih =>
    intro limit l hl c hc
    cases l with
    | nil => simp [forceSplitAux] at hc
    | cons x rest =>
      rw [forceSplitAux] at hc
      rcases List.mem_cons.mp hc with rfl | h2
      · cases limit with
        | zero => omega
        | succ k => simp
      · exact ih limit _ hl c h2

theorem forceSplitAux_length : ∀ (fuel limit : Nat) (l : List Char),
    0 < limit → l.length ≤ fuel →
    (forceSplitAux fuel limit l).length = (l.length + limit - 1) / limit := by
  intro fuel
  induction fuel with
  | zero =>
    intro limit l hl h
    have hnil : l = [] := List.eq_nil_of_length_eq_zero (Nat.le_zero.mp h)
    subst hnil
    show 0 = (0 + limit - 1) / limit
    rw [Nat.div_eq_of_lt (by omega)]
  | succ fuel ih =>
    intro limit l hl h
    cases l with
    | nil =>
      show 0 = (0 + limit - 1) / limit
      rw [Nat.div_eq_of_lt (by omega)]
    | cons x rest =>
      show ((x :: rest).take limit :: forceSplitAux fuel limit
        ((x :: rest).drop limit)).length = _
      rw [List.length_cons, ih limit ((x :: rest).drop limit) hl ?hfuel]
      case hfuel =>
        rw [List.length_drop]
        simp only [List.length_cons] at h ⊢
        omega
      rw [List.length_drop]
      simp only [List.length_cons]
      rcases le_or_lt (rest.length + 1) limit with hm | hm
      · have h1 : rest.length + 1 - limit = 0 := by omega
        rw [h1, Nat.div_eq_of_lt (by omega)]
        have h2 : rest.length + 1 + limit - 1 = (rest.length + 1 - 1) + limit := by omega
        rw [h2, Nat.add_div_right _ hl, Nat.div_eq_of_lt (by omega)]
      · have h2 : rest.length + 1 - limit + limit - 1 =
          (rest.length + 1 - 1 - limit) + limit := by omega
        have h3 : rest.length + 1 + limit - 1 =
          ((rest.length + 1 - 1 - limit) + limit) + limit := by omega
        rw [h2, h3, Nat.add_div_right _ hl, Nat.add_div_right _ hl,
          Nat.add_div_right _ hl]

theorem c9_text_chunks :
    splitChunks sendLimit (List.replicate 9000 'a') =
      forceSplit sendLimit (List.replicate 9000 'a') := by
  unfold splitChunks
  rw [splitLines_no_newline _ ?hnl]
  case hnl =>
    intro c hc
    rw [List.eq_of_mem_replicate hc]
    decide
  show splitCore sendLimit [List.replicate 9000 'a'] [] = _
  unfold splitCore
  rw [if_pos (by norm_num [sendLimit, TELEGRAM_MAX_MESSAGE_LENGTH])]
  rw [if_neg (by simp)]
  show [] ++ forceSplit sendLimit (List.replicate 9000 'a') ++
    (if strip [] ≠ [] then [strip []] else []) = _
  rw [if_neg (by simp [strip])]
  rw [List.nil_append, List.append_nil]

theorem c9_three_chunks :
    (splitChunks sendLimit (List.replicate 9000 'a')).length = 3 := by
  rw [c9_text_chunks]
  unfold forceSplit
  rw [forceSplitAux_length (List.replicate 9000 'a').length sendLimit
    (List.replicate 9000 'a') (by norm_num [sendLimit, TELEGRAM_MAX_MESSAGE_LENGTH])
    le_rfl]
  rw [List.length_replicate]
  norm_num [sendLimit, TELEGRAM_MAX_MESSAGE_LENGTH]

theorem c9_chunks_ne_nil :
    ∀ c ∈ splitChunks sendLimit (List.replicate 9000 'a'), c ≠ [] := by
  rw [c9_text_chunks]
  unfold forceSplit
  exact forceSplitAux_ne_nil _ _ _ (by norm_num [sendLimit, TELEGRAM_MAX_MESSAGE_LENGTH])

theorem c9_trace :
    (send_long_message successOracle (List.replicate 9000 'a') (some 7) true
      none).filterMap sendReply = [some 7, none, none] := by
  unfold send_long_message
  rw [if_neg ?hnn]
  case hnn =>
    intro h
    have h0 := congrArg List.length h
    rw [List.length_replicate] at h0
    exact absurd h0 (by norm_num)
  show (sendBody successOracle (List.replicate 9000 'a') (some 7) true).filterMap
    sendReply = _
  unfold sendBody
  show (if splitChunks sendLimit (List.replicate 9000 'a') = [] then []
    else deliverChunks successOracle true (some 7)
      (splitChunks sendLimit (List.replicate 9000 'a'))).filterMap sendReply = _
  rw [if_neg ?hne]
  case hne =>
    intro h
    have h3 := c9_three_chunks
    rw [h] at h3
    simp at h3
  unfold deliverChunks
  rw [chunkLoop_success_sends true (some 7) _ _ 0 c9_chunks_ne_nil]
  rw [c9_three_chunks]
  decide

/-- Claim C9.  First conjunct: in every delivery, for every oracle, a send
of chunk ordinal 0 carries the caller-supplied reply reference and every
send of a later chunk carries none.  Second and third conjuncts: a
9000-character single-line text with channel limit 4096 and safety margin 20
is split into exactly 3 chunks, and (with an accepting transport) its
delivery performs exactly 3 sends whose reply references are the caller's
reference, then none, then none. -/
theorem claim_C9 :
    (∀ (oracle : Oracle) (md : Bool) (replyArg : Option Nat)
        (chunks : List (List Char)) (e : Event),
        e ∈ deliverChunks oracle md replyArg chunks →
        ∀ idx t m r o, e = Event.sendMsg idx t m r o →
          r = (if idx = 0 then replyArg else none)) ∧
      (splitChunks sendLimit (List.replicate 9000 'a')).length = 3 ∧
      (send_long_message successOracle (List.replicate 9000 'a') (some 7) true
        none).filterMap sendReply = [some 7, none, none] :=
  ⟨fun oracle md replyArg chunks e he idx t m r o heq =>
      chunkLoop_reply oracle md replyArg chunks.length chunks 0 e he idx t m r o heq,
    c9_three_chunks, c9_trace⟩

/-- Witness for C9's universally quantified part at a concrete delivery: the
send of chunk 1 in a two-chunk delivery carries no reply reference. -/
theorem witness_C9 :
    (none : Option Nat) = (if 1 = 0 then (some 5 : Option Nat) else none) :=
  claim_C9.1 successOracle true (some 5) [['a'], ['b']]
    (Event.sendMsg 1 ['b'] true none SendOutcome.success) (by decide)
    1 ['b'] true none SendOutcome.success rfl

end TelebotGemini
